import Mathlib

/-!
Verification of the Nexus indexer core (packages/indexer-py) against its
natural-language specification.  The Python source is shallowly embedded:
pure functions become Lean functions, the SQLite-backed scan becomes explicit
state passing over an association-list database with an explicit
committed/current transaction split, and Python integers become `Int`
(with Python slice semantics modelled explicitly).
-/

set_option maxRecDepth 10000

namespace Nexus

/-! ## Chunker (packages/indexer-py/chunker.py, `chunk_content`) -/

/-- One chunk yielded by `chunk_content`.  The Python generator also yields
`symbol`/`kind` (a regex heuristic over the chunk text); no claim depends on
them, so they are not modelled here. -/
structure PyChunk where
  start_line : Int
  end_line : Int
  content : String
  token_count : Nat
deriving DecidableEq, Repr

/-- Clamp a Python slice index to an actual list index:
negative indices count from the end, and everything is clamped to
`[0, len]` exactly as Python slicing does. -/
def pyIdx (len : Nat) (i : Int) : Nat :=
  if i < 0 then ((len : Int) + i).toNat else min i.toNat len

/-- Python's `l[s:e]` on a list. -/
def pySlice (l : List α) (s e : Int) : List α :=
  (l.take (pyIdx l.length e)).drop (pyIdx l.length s)

/-- `end = min(start + max_lines, total_lines)` in the loop body. -/
def winEnd (total start max_lines : Int) : Int := min (start + max_lines) total

/-- The advance rule at the bottom of the loop:
`new_start = end - overlap`, forced to `start + 1` when that would not
advance past `start`. -/
def nextStart (start e overlap : Int) : Int :=
  if e - overlap ≤ start then start + 1 else e - overlap

/-- The dict yielded for the window `lines[start:e]`. -/
def mkChunk (lines : List String) (start e : Int) : PyChunk :=
  { start_line := start + 1
    end_line := e
    content := String.intercalate "\n" (pySlice lines start e)
    token_count := (String.intercalate "\n" (pySlice lines start e)).length / 4 }

/-- The `while start < total_lines` loop of `chunk_content`, with an explicit
fuel argument (the loop makes strictly positive progress on `start` each
iteration, so fuel `total_lines` is enough; this is proved below).
`prev_start` is the source's infinite-loop guard variable. -/
def chunkLoop (lines : List String) (max_lines overlap min_lines : Int) :
    Nat → Int → Int → List PyChunk
  | 0, _, _ => []
  | fuel + 1, start, prev_start =>
    let total : Int := lines.length
    if start < total then
      if start = prev_start then
        []
      else
        let e := winEnd total start max_lines
        let cl := pySlice lines start e
        let rest :=
          if e ≥ total then []
          else chunkLoop lines max_lines overlap min_lines fuel
            (nextStart start e overlap) start
        if min_lines ≤ (cl.length : Int) ∨ start = 0 then
          mkChunk lines start e :: rest
        else rest
    else []

/-- `chunk_content` run on an already-split line list. -/
def chunksFrom (lines : List String) (max_lines overlap min_lines : Int) :
    List PyChunk :=
  chunkLoop lines max_lines overlap min_lines lines.length 0 (-1)

/-- Split a character list at every occurrence of `c`, Python
`str.split` style: the result always has one more piece than there are
separators (so it is never empty, and splitting the empty list gives one
empty piece). -/
def splitOnChar (c : Char) : List Char → List (List Char)
  | [] => [[]]
  | a :: rest =>
    let r := splitOnChar c rest
    if a = c then [] :: r
    else
      match r with
      | [] => [[a]]
      | h :: t => (a :: h) :: t

/-- Python's `content.split("\n")`. -/
def pySplit (content : String) : List String :=
  (splitOnChar '\n' content.toList).map (fun l => String.mk l)

/-- `chunk_content(content, max_lines, overlap, min_lines)`:
split on `"\n"`, return nothing on a zero-line split, otherwise run the
chunking loop.  The source defaults `max_lines/overlap/min_lines` to
`80/5/3`; callers here always pass them explicitly.  The `language`
parameter only feeds the (unmodelled) symbol heuristic and is omitted. -/
def chunk_content (content : String) (max_lines overlap min_lines : Int) :
    List PyChunk :=
  if (pySplit content).length = 0 then []
  else chunksFrom (pySplit content) max_lines overlap min_lines

/-! ### Basic chunker lemmas -/

lemma pyIdx_le (len : Nat) (i : Int) : pyIdx len i ≤ len := by
  unfold pyIdx
  split
  · omega
  · exact Nat.min_le_right _ _

lemma pySlice_length (l : List α) (s e : Int) :
    (pySlice l s e).length = pyIdx l.length e - pyIdx l.length s := by
  unfold pySlice
  rw [List.length_drop, List.length_take]
  have := pyIdx_le l.length e
  omega

lemma pyIdx_of_nonneg_le (len : Nat) (i : Int) (h0 : 0 ≤ i) (h : i ≤ len) :
    (pyIdx len i : Int) = i := by
  unfold pyIdx
  rw [if_neg (by omega)]
  omega

/-- One unfolding of the loop at positive fuel. -/
lemma chunkLoop_succ (lines : List String) (m o mi : Int)
    (fuel : Nat) (start prev : Int) :
    chunkLoop lines m o mi (fuel + 1) start prev =
      if start < (lines.length : Int) then
        if start = prev then []
        else
          if mi ≤ ((pySlice lines start
                (winEnd (lines.length : Int) start m)).length : Int) ∨
              start = 0 then
            mkChunk lines start (winEnd (lines.length : Int) start m) ::
              (if winEnd (lines.length : Int) start m ≥ (lines.length : Int)
                then []
                else chunkLoop lines m o mi fuel
                  (nextStart start (winEnd (lines.length : Int) start m) o)
                  start)
          else
            (if winEnd (lines.length : Int) start m ≥ (lines.length : Int)
              then []
              else chunkLoop lines m o mi fuel
                (nextStart start (winEnd (lines.length : Int) start m) o)
                start)
      else [] := rfl

lemma nextStart_gt (start e o : Int) : start < nextStart start e o := by
  unfold nextStart
  split <;> omega

/-- Once the fuel is at least `total - start`, adding more fuel does not
change the loop's output: the loop runs at most `total - start` more
iterations. -/
lemma chunkLoop_fuel_succ (lines : List String) (m o mi : Int) :
    ∀ (fuel : Nat) (start prev : Int), (lines.length : Int) ≤ start + fuel →
      chunkLoop lines m o mi (fuel + 1) start prev =
        chunkLoop lines m o mi fuel start prev := by
  intro fuel
  induction fuel with
  | zero =>
    intro start prev h
    rw [chunkLoop_succ, if_neg (by omega)]
    rfl
  | succ n ih =>
    intro start prev h
    conv_lhs => rw [chunkLoop_succ]
    conv_rhs => rw [chunkLoop_succ]
    by_cases h1 : start < (lines.length : Int)
    · rw [if_pos h1, if_pos h1]
      by_cases h2 : start = prev
      · rw [if_pos h2, if_pos h2]
      · rw [if_neg h2, if_neg h2]
        have hrec :
            (if winEnd (lines.length : Int) start m ≥ (lines.length : Int)
              then []
              else chunkLoop lines m o mi (n + 1)
                (nextStart start (winEnd (lines.length : Int) start m) o)
                start) =
            (if winEnd (lines.length : Int) start m ≥ (lines.length : Int)
              then []
              else chunkLoop lines m o mi n
                (nextStart start (winEnd (lines.length : Int) start m) o)
                start) := by
          by_cases h3 : winEnd (lines.length : Int) start m ≥ (lines.length : Int)
          · rw [if_pos h3, if_pos h3]
          · rw [if_neg h3, if_neg h3]
            apply ih
            have := nextStart_gt start (winEnd (lines.length : Int) start m) o
            omega
        rw [hrec]
    · rw [if_neg h1, if_neg h1]

/-- Any fuel at least `total - start` computes the same list as fuel
exactly `total - start` would. -/
lemma chunkLoop_fuel_add (lines : List String) (m o mi : Int)
    (fuel k : Nat) (start prev : Int) (h : (lines.length : Int) ≤ start + fuel) :
    chunkLoop lines m o mi (fuel + k) start prev =
      chunkLoop lines m o mi fuel start prev := by
  induction k with
  | zero => rfl
  | succ n ih =>
    have : fuel + (n + 1) = (fuel + n) + 1 := by omega
    rw [this, chunkLoop_fuel_succ lines m o mi (fuel + n) start prev (by omega), ih]

@[simp] lemma mkChunk_start_line (lines : List String) (s e : Int) :
    (mkChunk lines s e).start_line = s + 1 := rfl

@[simp] lemma mkChunk_end_line (lines : List String) (s e : Int) :
    (mkChunk lines s e).end_line = e := rfl

/-- Every chunk the loop yields from position `start` starts at line
`start + 1` or later. -/
lemma chunkLoop_start_bound (lines : List String) (m o mi : Int) :
    ∀ (fuel : Nat) (start prev : Int),
      ∀ c ∈ chunkLoop lines m o mi fuel start prev, start + 1 ≤ c.start_line := by
  intro fuel
  induction fuel with
  | zero => intro start prev c hc; exact absurd hc (List.not_mem_nil c)
  | succ n ih =>
    intro start prev c hc
    rw [chunkLoop_succ] at hc
    have hns := nextStart_gt start (winEnd (lines.length : Int) start m) o
    split_ifs at hc with h1 h2 h3 h4 h5
    · exact absurd hc (List.not_mem_nil c)
    · rcases List.mem_cons.mp hc with rfl | hc'
      · simp
      · exact absurd hc' (List.not_mem_nil c)
    · rcases List.mem_cons.mp hc with rfl | hc'
      · simp
      · have := ih _ _ c hc'
        omega
    · exact absurd hc (List.not_mem_nil c)
    · have := ih _ _ c hc
      omega
    · exact absurd hc (List.not_mem_nil c)

/-- The start lines of the yielded chunks are strictly increasing, for every
configuration (including pathological ones). -/
lemma chunkLoop_pairwise (lines : List String) (m o mi : Int) :
    ∀ (fuel : Nat) (start prev : Int),
      ((chunkLoop lines m o mi fuel start prev).map
        (fun c => c.start_line)).Pairwise (· < ·) := by
  intro fuel
  induction fuel with
  | zero => intro start prev; simp [chunkLoop]
  | succ n ih =>
    intro start prev
    rw [chunkLoop_succ]
    have hns := nextStart_gt start (winEnd (lines.length : Int) start m) o
    split_ifs with h1 h2 h3 h4 h5
    · simp
    · simp
    · rw [List.map_cons, List.pairwise_cons]
      refine ⟨?_, ih _ _⟩
      intro b hb
      rw [List.mem_map] at hb
      obtain ⟨c, hc, rfl⟩ := hb
      have := chunkLoop_start_bound lines m o mi n _ _ c hc
      simp only [mkChunk_start_line]
      omega
    · simp
    · exact ih _ _
    · simp

/-- `cs` covers every line of `[1, n]`: the union of the `[start_line,
end_line]` ranges has no gap over `[1, n]`. -/
def coversRange (cs : List PyChunk) (n : Int) : Prop :=
  ∀ j : Int, 1 ≤ j → j ≤ n → ∃ c ∈ cs, c.start_line ≤ j ∧ j ≤ c.end_line

/-- Coverage invariant for the loop: under a nonnegative overlap, a window of
at least one line, and `min_lines` at most both `max_lines` and
`overlap + 1`, every line from `start + 1` to the end is covered by some
yielded chunk.  The last hypothesis is the loop invariant: the current
window is either big enough to be yielded or is the very first one. -/
lemma chunkLoop_covers (lines : List String) (m o mi : Int)
    (hm : 1 ≤ m) (ho : 0 ≤ o) (hmm : mi ≤ m) (hmo : mi ≤ o + 1) :
    ∀ (fuel : Nat) (start prev : Int),
      0 ≤ start → start < (lines.length : Int) →
      (lines.length : Int) ≤ start + fuel → prev < start →
      (mi ≤ (lines.length : Int) - start ∨ start = 0) →
      ∀ j : Int, start + 1 ≤ j → j ≤ (lines.length : Int) →
        ∃ c ∈ chunkLoop lines m o mi fuel start prev,
          c.start_line ≤ j ∧ j ≤ c.end_line := by
  intro fuel
  induction fuel with
  | zero =>
    intro start prev h0 h1 h2 _ _ j _ _
    omega
  | succ n ih =>
    intro start prev h0 h1 h2 hprev hinv j hj1 hj2
    rw [chunkLoop_succ, if_pos h1, if_neg (by omega)]
    have heA : winEnd (lines.length : Int) start m ≤ start + m :=
      min_le_left _ _
    have heB : winEnd (lines.length : Int) start m ≤ (lines.length : Int) :=
      min_le_right _ _
    have heC : winEnd (lines.length : Int) start m = start + m ∨
        winEnd (lines.length : Int) start m = (lines.length : Int) :=
      min_choice _ _
    have hcl : ((pySlice lines start
        (winEnd (lines.length : Int) start m)).length : Int) =
        winEnd (lines.length : Int) start m - start := by
      rw [pySlice_length]
      have hs : (pyIdx lines.length start : Int) = start :=
        pyIdx_of_nonneg_le _ _ h0 (by omega)
      have he' : (pyIdx lines.length (winEnd (lines.length : Int) start m) :
          Int) = winEnd (lines.length : Int) start m :=
        pyIdx_of_nonneg_le _ _ (by omega) (by omega)
      omega
    have hyield : mi ≤ ((pySlice lines start
        (winEnd (lines.length : Int) start m)).length : Int) ∨ start = 0 := by
      rcases hinv with hinv | hinv
      · left; omega
      · right; exact hinv
    rw [if_pos hyield]
    by_cases hje : j ≤ winEnd (lines.length : Int) start m
    · refine ⟨mkChunk lines start (winEnd (lines.length : Int) start m),
        List.mem_cons_self _ _, ?_⟩
      simp only [mkChunk_start_line, mkChunk_end_line]
      omega
    · push_neg at hje
      have hetot : ¬ (winEnd (lines.length : Int) start m ≥
          (lines.length : Int)) := by omega
      rw [if_neg hetot]
      have heq : winEnd (lines.length : Int) start m = start + m := by omega
      have hns1 : start < nextStart start (winEnd (lines.length : Int) start m) o :=
        nextStart_gt start _ o
      have hns2 : nextStart start (winEnd (lines.length : Int) start m) o ≤
          winEnd (lines.length : Int) start m + 1 := by
        unfold nextStart; split <;> omega
      have hnsle : nextStart start (winEnd (lines.length : Int) start m) o ≤
          winEnd (lines.length : Int) start m - o ∨
          nextStart start (winEnd (lines.length : Int) start m) o = start + 1 := by
        unfold nextStart; split
        · right; rfl
        · left; omega
      have hnsinv : mi ≤ (lines.length : Int) -
          nextStart start (winEnd (lines.length : Int) start m) o := by
        rcases hnsle with h' | h' <;> omega
      obtain ⟨c, hc, hcov⟩ := ih
        (nextStart start (winEnd (lines.length : Int) start m) o) start
        (by omega) (by omega) (by omega) (by omega) (Or.inl hnsinv) j
        (by omega) hj2
      exact ⟨c, List.mem_cons_of_mem _ hc, hcov⟩

/-- The `(start_line, end_line)` range of a chunk. -/
def lineRange (c : PyChunk) : Int × Int := (c.start_line, c.end_line)

@[simp] lemma lineRange_mkChunk (lines : List String) (s e : Int) :
    lineRange (mkChunk lines s e) = (s + 1, e) := rfl

/-- The sequence of line ranges the loop yields depends only on the number
of lines, not on their text. -/
lemma chunkLoop_ranges_congr (lines lines' : List String)
    (h : lines.length = lines'.length) (m o mi : Int) :
    ∀ (fuel : Nat) (start prev : Int),
      (chunkLoop lines m o mi fuel start prev).map lineRange =
        (chunkLoop lines' m o mi fuel start prev).map lineRange := by
  intro fuel
  induction fuel with
  | zero => intro start prev; rfl
  | succ n ih =>
    intro start prev
    conv_lhs => rw [chunkLoop_succ]
    conv_rhs => rw [chunkLoop_succ]
    simp only [pySlice_length, h]
    split_ifs
    · rfl
    · rfl
    · rw [List.map_cons, List.map_cons, lineRange_mkChunk, lineRange_mkChunk, ih]
    · rfl
    · exact ih _ _
    · rfl

/-! ### Chunker claim theorems -/

/-- C3: for every input text and every configuration of `max_lines`,
`overlap` and `min_lines` (including `overlap ≥ max_lines`, `overlap < 0`
and `max_lines = 1`), the chunking loop terminates after at most `N`
iterations, `N` the number of lines: running it with any fuel beyond `N`
yields exactly `chunk_content`, which uses fuel `N`. -/
theorem c3_chunker_terminates (content : String)
    (max_lines overlap min_lines : Int) (k : Nat) :
    chunkLoop (pySplit content) max_lines overlap min_lines
        ((pySplit content).length + k) 0 (-1) =
      chunk_content content max_lines overlap min_lines := by
  unfold chunk_content chunksFrom
  by_cases h : (pySplit content).length = 0
  · rw [if_pos h, h, Nat.zero_add]
    cases k with
    | zero => rfl
    | succ n =>
      rw [chunkLoop_succ, if_neg (by rw [h]; decide)]
  · rw [if_neg h]
    exact chunkLoop_fuel_add _ _ _ _ _ k 0 (-1) (by omega)

/-- C5: for every input text and configuration, the `start_line`s of the
yielded chunks are strictly increasing. -/
theorem c5_start_lines_strictly_increasing (content : String)
    (max_lines overlap min_lines : Int) :
    ((chunk_content content max_lines overlap min_lines).map
      (fun c => c.start_line)).Pairwise (· < ·) := by
  unfold chunk_content chunksFrom
  split
  · simp
  · exact chunkLoop_pairwise _ _ _ _ _ _ _

/-- C2 (amended): the union of the yielded `[start_line, end_line]` ranges
covers `[1, N]` with no gap whenever `max_lines ≥ 1`, `overlap ≥ 0`,
`min_lines ≤ max_lines` and `min_lines ≤ overlap + 1` (the scanner's
defaults `80/5/3` satisfy these).  It does not hold for every
configuration: see the counterexample. -/
theorem c2_coverage_amended (content : String) (max_lines overlap min_lines : Int)
    (hN : 1 ≤ (pySplit content).length)
    (hm : 1 ≤ max_lines) (ho : 0 ≤ overlap)
    (hmm : min_lines ≤ max_lines) (hmo : min_lines ≤ overlap + 1) :
    coversRange (chunk_content content max_lines overlap min_lines)
      ((pySplit content).length : Int) := by
  unfold chunk_content chunksFrom
  rw [if_neg (by omega)]
  intro j hj1 hj2
  exact chunkLoop_covers _ _ _ _ hm ho hmm hmo _ 0 (-1) (by omega)
    (by omega) (by omega) (by omega) (Or.inr rfl) j (by omega) hj2

/-- Witness for C2 (amended) at a concrete 7-line text with
`max_lines = 3`, `overlap = 1`, `min_lines = 2`. -/
theorem c2_coverage_witness :
    (1 ≤ (pySplit "a\nb\nc\nd\ne\nf\ng").length ∧
      (1 : Int) ≤ 3 ∧ (0 : Int) ≤ 1 ∧ (2 : Int) ≤ 3 ∧ (2 : Int) ≤ 1 + 1) ∧
    coversRange (chunk_content "a\nb\nc\nd\ne\nf\ng" 3 1 2)
      ((pySplit "a\nb\nc\nd\ne\nf\ng").length : Int) :=
  ⟨by decide, c2_coverage_amended "a\nb\nc\nd\ne\nf\ng" 3 1 2 (by decide)
    (by decide) (by decide) (by decide) (by decide)⟩

/-- Counterexample to C2 as stated: with `max_lines = 3`, `overlap = 0`,
`min_lines = 3` on a 4-line text, the trailing 1-line window is discarded
by the `min_lines` filter, so line 4 is covered by no chunk. -/
theorem c2_coverage_counterexample :
    ¬ coversRange (chunk_content "x\nx\nx\nx" 3 0 3)
      ((pySplit "x\nx\nx\nx").length : Int) := by
  intro h
  obtain ⟨c, hc, h1, h2⟩ := h 4 (by decide) (by decide)
  have he : chunk_content "x\nx\nx\nx" 3 0 3 =
      [{ start_line := 1, end_line := 3, content := "x\nx\nx",
         token_count := 1 }] := by decide
  rw [he, List.mem_singleton] at hc
  subst hc
  exact absurd h2 (by decide)

/-- C8: any text of exactly 200 lines chunked with `max_lines = 80`,
`overlap = 5`, `min_lines = 3` yields exactly 3 chunks with line ranges
`1–80`, `76–155` and `151–200`: the last chunk ends exactly at line 200
and the loop stops after it. -/
theorem c8_two_hundred_line_scenario (content : String)
    (h : (pySplit content).length = 200) :
    (chunk_content content 80 5 3).map lineRange =
      [(1, 80), (76, 155), (151, 200)] := by
  unfold chunk_content chunksFrom
  rw [if_neg (by omega)]
  have hc := chunkLoop_ranges_congr (pySplit content)
    (List.replicate 200 "x") (by simp [h]) 80 5 3
    ((pySplit content).length) 0 (-1)
  rw [hc, h]
  decide

/-- Witness for C8 at a concrete 200-line text. -/
theorem c8_two_hundred_line_witness :
    (pySplit (String.intercalate "\n" (List.replicate 200 "x"))).length
        = 200 ∧
    (chunk_content (String.intercalate "\n" (List.replicate 200 "x"))
        80 5 3).map lineRange = [(1, 80), (76, 155), (151, 200)] :=
  ⟨by decide, c8_two_hundred_line_scenario _ (by decide)⟩

/-- Counterexample to C9 as stated: the empty text does not have zero
lines — splitting it gives one (empty) line, so the chunker yields one
chunk, not none. -/
theorem c9_empty_text_counterexample :
    chunk_content "" 80 5 3 =
      [{ start_line := 1, end_line := 1, content := "", token_count := 0 }] ∧
    chunk_content "" 80 5 3 ≠ [] := by
  constructor
  · decide
  · decide

/-- C9 (amended): splitting always produces at least one line, so the
zero-line guard can only fire on an empty line list, where the loop indeed
produces no chunks; the empty text itself yields exactly one chunk
covering line 1 with empty content. -/
theorem c9_zero_lines_amended :
    (∀ (max_lines overlap min_lines : Int) (fuel : Nat) (prev : Int),
      chunkLoop [] max_lines overlap min_lines fuel 0 prev = []) ∧
    chunk_content "" 80 5 3 =
      [{ start_line := 1, end_line := 1, content := "", token_count := 0 }] := by
  constructor
  · intro m o mi fuel prev
    cases fuel with
    | zero => rfl
    | succ n =>
      rw [chunkLoop_succ, if_neg]
      decide
  · decide

/-! ## Store search escaping (packages/indexer-py/database.py, `search_fts`)

`search_fts` hands the query to SQLite FTS5; the repository's own logic is
the escaping step `query if " " not in query else f'"{query}"'`.  Python's
`" " in query` is a substring test, which for a one-character needle is
exactly "some character of the query is a space". -/

/-- The `escaped_query` computed by `search_fts` before the `MATCH`. -/
def escaped_query (query : String) : String :=
  if query.toList.contains ' ' then "\"" ++ query ++ "\"" else query

/-! ## Walker (packages/indexer-py/scanner.py, `walk_files` / `should_ignore`) -/

/-- The static deny-set of directory/file names (`DEFAULT_IGNORE`).
Python checks set membership of the entry name, so glob-looking entries
like `*.egg-info` only match that literal name.  (The source also defines
`GITIGNORE_COMMON_PATTERNS`, which no function reads; it is omitted.) -/
def DEFAULT_IGNORE : List String :=
  ["node_modules", ".npm", ".yarn", ".pnpm-store", "bower_components",
   "vendor",
   "__pycache__", ".pytest_cache", ".mypy_cache", ".ruff_cache", "venv",
   ".venv", "env", ".env", "site-packages", ".tox", ".nox", "eggs",
   "*.egg-info",
   "dist", "build", "out", "target", "_build", "public/build",
   ".next", ".nuxt", ".output", ".vinxi", ".svelte-kit", ".vercel",
   ".netlify", "var", "storage", "bootstrap/cache",
   ".idea", ".vscode", ".vs", "*.sublime-workspace",
   ".git", ".svn", ".hg",
   "coverage", ".nyc_output", "htmlcov",
   ".cache", ".turbo", ".parcel-cache", ".webpack", ".rollup.cache",
   ".eslintcache", ".stylelintcache",
   "logs", "*.log",
   "tmp", "temp", ".tmp",
   ".DS_Store", "Thumbs.db",
   ".docker"]

/-- The static deny-set of file extensions (`IGNORE_EXTENSIONS`). -/
def IGNORE_EXTENSIONS : List String :=
  [".min.js", ".min.css", ".bundle.js", ".map", ".db", ".db-shm",
   ".db-wal", ".pyc", ".pyo", ".so", ".dylib", ".dll", ".exe", ".bin",
   ".png", ".jpg", ".jpeg", ".gif", ".ico", ".svg", ".woff", ".woff2",
   ".ttf", ".eot", ".mp3", ".mp4", ".wav", ".avi", ".mov", ".pdf",
   ".zip", ".tar", ".gz", ".rar", ".7z"]

/-- `pattern.replace("**", "*")`: collapse every (non-overlapping,
left-to-right) `**` into `*`. -/
def replaceDoubleStar : List Char → List Char
  | '*' :: '*' :: rest => '*' :: replaceDoubleStar rest
  | c :: rest => c :: replaceDoubleStar rest
  | [] => []

/-- `needle in haystack` on character lists (Python substring test). -/
def hasSubSeq (pat : List Char) : List Char → Bool
  | [] => pat.isEmpty
  | a :: rest => pat.isPrefixOf (a :: rest) || hasSubSeq pat rest

/-- `should_ignore(name, rel_path, gitignore_patterns)`:
a static deny-set name match short-circuits; otherwise each gitignore
pattern is tried with `fnmatch` against the bare name, the relative path,
and (for patterns containing `**`) the relative path against the
`**`-collapsed pattern.  `fnmatch` itself is Python library code and is
abstracted as a parameter. -/
def should_ignore (fnmatch : String → String → Bool)
    (name rel_path : String) (gitignore_patterns : List String) : Bool :=
  if DEFAULT_IGNORE.contains name then true
  else gitignore_patterns.any fun p =>
    fnmatch name p || fnmatch rel_path p ||
      (hasSubSeq ['*', '*'] p.toList &&
        fnmatch rel_path (String.mk (replaceDoubleStar p.toList)))

/-- `entry.name.startswith(".")`. -/
def startsDot (name : String) : Bool :=
  match name.toList with
  | c :: _ => c = '.'
  | [] => false

/-- Python `str.lower()` (ASCII case folding suffices for the extension
table). -/
def lowerStr (s : String) : String := String.mk (s.toList.map Char.toLower)

/-- `PurePath.suffix` of a file name: the substring from the last dot,
provided that dot is neither the first nor the last character; else
the empty string.  In particular the suffix never contains more than one
dot: `"app.min.js"` has suffix `".js"`. -/
def pySuffix (name : String) : String :=
  let cs := name.toList
  match (cs.reverse).findIdx? (fun c => c = '.') with
  | none => ""
  | some r =>
    if 1 ≤ r ∧ r ≤ cs.length - 2 then
      String.mk ((cs.reverse.take (r + 1)).reverse)
    else ""

/-- A directory tree entry as the walker sees it. -/
inductive FSEntry where
  | dir (name : String) (entries : List FSEntry)
  | file (name : String)

/-- `str(entry.relative_to(root_path))` built incrementally. -/
def relJoin (pre name : String) : String :=
  if pre = "" then name else pre ++ "/" ++ name

/-- The recursive `_walk` of `walk_files`.  The fuel argument is the
remaining allowed depth (`max_depth + 1 - depth`); fuel `0` is exactly
Python's `depth > max_depth` early return. -/
def walkAux (fnmatch : String → String → Bool)
    (gitignore_patterns : List String) :
    Nat → String → List FSEntry → List String
  | 0, _, _ => []
  | fuel + 1, pre, entries =>
    entries.flatMap fun e =>
      match e with
      | .dir name sub =>
        if startsDot name then []
        else if should_ignore fnmatch name (relJoin pre name)
            gitignore_patterns then []
        else walkAux fnmatch gitignore_patterns fuel (relJoin pre name) sub
      | .file name =>
        if startsDot name then []
        else if IGNORE_EXTENSIONS.contains (lowerStr (pySuffix name)) then []
        else if should_ignore fnmatch name (relJoin pre name)
            gitignore_patterns then []
        else [relJoin pre name]

/-- `walk_files(root_path, max_depth=20)`; the `.gitignore` patterns are
read once up front and threaded through (here: supplied as an argument,
since file I/O is outside the model). -/
def walk_files (fnmatch : String → String → Bool)
    (gitignore_patterns : List String) (root : List FSEntry)
    (max_depth : Nat) : List String :=
  walkAux fnmatch gitignore_patterns (max_depth + 1) "" root

/-! ### Search-escaping and walker claim theorems -/

/-- C6 (amended): every query containing a space character (U+0020) is
passed to the FTS engine as the whole query wrapped in double quotes — a
single literal phrase.  Whitespace other than a space (tab, newline) does
not trigger the quoting: see the counterexample. -/
theorem c6_space_query_quoted (query : String)
    (h : query.toList.contains ' ' = true) :
    escaped_query query = "\"" ++ query ++ "\"" := by
  unfold escaped_query
  rw [if_pos h]

/-- Witness for C6 (amended) at the query `"hello world"`. -/
theorem c6_space_query_quoted_witness :
    ("hello world".toList.contains ' ' = true) ∧
    escaped_query "hello world" = "\"" ++ "hello world" ++ "\"" :=
  ⟨by decide, c6_space_query_quoted "hello world" (by decide)⟩

/-- Counterexample to C6 as stated: the query `"a\tb"` contains
whitespace (a tab), yet `search_fts` passes it through unquoted, because
the source tests only for the space character. -/
theorem c6_whitespace_counterexample :
    ("a\tb".toList.any Char.isWhitespace = true) ∧
    escaped_query "a\tb" = "a\tb" ∧
    "a\tb" ≠ "\"" ++ "a\tb" ++ "\"" := by
  refine ⟨by decide, by decide, by decide⟩

/-- C7 (code bug): the deny-set `IGNORE_EXTENSIONS` lists the multi-dot
extension `".min.js"`, but the walker compares it against
`entry.suffix.lower()`, and `PurePath.suffix` only ever contains the last
dot-component — `"app.min.js"` has suffix `".js"`.  So a file named
`app.min.js` (not hidden, no gitignore patterns) IS yielded by the
walker, although the spec says files with deny-set extensions are
skipped. -/
theorem c7_min_js_file_is_yielded :
    pySuffix "app.min.js" = ".js" ∧
    IGNORE_EXTENSIONS.contains ".min.js" = true ∧
    IGNORE_EXTENSIONS.contains ".js" = false ∧
    walk_files (fun _ _ => false) [] [FSEntry.file "app.min.js"] 20 =
      ["app.min.js"] := by
  refine ⟨by decide, by decide, by decide, by decide⟩

/-! ## Store and scan orchestrator
(packages/indexer-py/database.py and scanner.py, `scan_workspace_sync`)

The SQLite store is modelled as row lists.  Only the columns the scan
logic reads back are modelled on a file row (`id`, `path`, `hash`);
`mtime`/`size`/`lang`/`indexed_at`/`project_id` are written on the same
code path but never read by the scan, and a chunk row's `symbol`/`kind`
likewise.  A connection carries a `committed` snapshot and the `current`
uncommitted view: reads go to `current`, `conn.commit()` publishes
`current`, and — exactly as in the source, which has no rollback — a
caught per-file exception leaves `current` as it is.

`hash_content` (a truncated SHA-256 in the source, i.e. Python library
code) is abstracted as an arbitrary deterministic digest function passed
in as a parameter.  Per-file failures are injected through the event
list: a file read either fails to decode or produces text, and a DB
error may be injected at the k-th `insert_chunk` or at the final
`conn.commit()` (both can raise in SQLite). -/

structure FileRow where
  id : Nat
  path : String
  hash : String
deriving DecidableEq

structure ChunkRow where
  file_id : Nat
  start_line : Int
  end_line : Int
  content : String
deriving DecidableEq

structure DB where
  files : List FileRow
  chunks : List ChunkRow
  nextId : Nat
deriving DecidableEq

/-- `SELECT ... FROM files WHERE path = ?` (`get_file_by_path`). -/
def get_file_by_path (db : DB) (path : String) : Option FileRow :=
  db.files.find? (fun r => r.path == path)

/-- `upsert_file`: `UPDATE files SET hash = ... WHERE path = ?`, and if no
row was updated, `INSERT`; returns the row id either way. -/
def upsert_file (db : DB) (path content_hash : String) : Nat × DB :=
  match get_file_by_path db path with
  | some r =>
    (r.id, { db with files := db.files.map fun q =>
        if q.path == path then { q with hash := content_hash } else q })
  | none =>
    (db.nextId, { db with
        files := db.files ++ [⟨db.nextId, path, content_hash⟩],
        nextId := db.nextId + 1 })

/-- `DELETE FROM chunks WHERE file_id = ?` (`delete_chunks_for_file`). -/
def delete_chunks_for_file (db : DB) (file_id : Nat) : DB :=
  { db with chunks := db.chunks.filter fun c => c.file_id != file_id }

/-- `INSERT INTO chunks ...` (`insert_chunk`). -/
def insert_chunk (db : DB) (file_id : Nat) (c : PyChunk) : DB :=
  { db with chunks :=
      db.chunks ++ [⟨file_id, c.start_line, c.end_line, c.content⟩] }

/-- The `for chunk in chunks: insert_chunk(...)` loop. -/
def insertChunks (db : DB) (file_id : Nat) (cs : List PyChunk) : DB :=
  cs.foldl (fun d c => insert_chunk d file_id c) db

structure DBConn where
  committed : DB
  current : DB
deriving DecidableEq

/-- A DB error injected into one file's processing: the (k+1)-th
`insert_chunk` raises, or the final `conn.commit()` raises. -/
inductive DbFail where
  | atInsert (k : Nat) (msg : String)
  | atCommit (msg : String)
deriving DecidableEq

/-- What reading one file produces. -/
inductive ReadOutcome where
  | undecodable
  | text (content : String) (fail : Option DbFail)
deriving DecidableEq

/-- One file pulled from the walker, with its observable environment
behaviour: `stat` raising, or a size plus a read outcome. -/
inductive FileEvent where
  | statError (path msg : String)
  | ok (path : String) (size : Nat) (outcome : ReadOutcome)
deriving DecidableEq

def evPath : FileEvent → String
  | .statError p _ => p
  | .ok p _ _ => p

/-- Does the event inject a failure at the per-file `conn.commit()`? -/
def isCommitFail : FileEvent → Bool
  | .ok _ _ (.text _ (some (.atCommit _))) => true
  | _ => false

structure ScanResult where
  files_scanned : Nat
  files_indexed : Nat
  files_skipped : Nat
  chunks_created : Nat
  errors : List (String × String)
  stopped_early : Bool
deriving DecidableEq

structure ScanState where
  conn : DBConn
  res : ScanResult
deriving DecidableEq

structure ScanConfig where
  max_files : Nat
  max_file_size : Nat
  max_chunk_lines : Int
deriving DecidableEq

/-- The per-file body of the scan loop (the `try`/`except` block of
`scan_workspace_sync`): size ceiling → read → fingerprint → unchanged-skip
→ upsert, delete old chunks, insert fresh chunks, bump `files_indexed`,
commit.  A `statError` or an injected DB error takes the `except` path:
the error is recorded and — as in the source — nothing is rolled back and
nothing is committed.  An injected `atCommit` error strikes after
`files_indexed` was already incremented. -/
def processFile (hash_content : String → String) (cfg : ScanConfig)
    (st : ScanState) (ev : FileEvent) : ScanState :=
  let res := { st.res with files_scanned := st.res.files_scanned + 1 }
  match ev with
  | .statError p msg =>
    { st with res := { res with errors := res.errors ++ [(p, msg)] } }
  | .ok p size outcome =>
    if size > cfg.max_file_size then
      { st with res := { res with files_skipped := res.files_skipped + 1 } }
    else
      match outcome with
      | .undecodable =>
        { st with res := { res with files_skipped := res.files_skipped + 1 } }
      | .text content fail =>
        let content_hash := hash_content content
        let existing := get_file_by_path st.conn.current p
        let reindex : ScanState :=
          let fid_db := upsert_file st.conn.current p content_hash
          let db2 := if existing.isSome
            then delete_chunks_for_file fid_db.2 fid_db.1 else fid_db.2
          let chunks := chunk_content content cfg.max_chunk_lines 5 3
          let success : ScanState :=
            let db3 := insertChunks db2 fid_db.1 chunks
            { conn := ⟨db3, db3⟩,
              res := { res with
                chunks_created := res.chunks_created + chunks.length,
                files_indexed := res.files_indexed + 1 } }
          match fail with
          | none => success
          | some (.atInsert k msg) =>
            if k < chunks.length then
              { conn := { st.conn with
                  current := insertChunks db2 fid_db.1 (chunks.take k) },
                res := { res with
                  chunks_created := res.chunks_created + k,
                  errors := res.errors ++ [(p, msg)] } }
            else success
          | some (.atCommit msg) =>
            { conn := { st.conn with
                current := insertChunks db2 fid_db.1 chunks },
              res := { res with
                chunks_created := res.chunks_created + chunks.length,
                files_indexed := res.files_indexed + 1,
                errors := res.errors ++ [(p, msg)] } }
        match existing with
        | some r =>
          if r.hash == content_hash then
            { st with res :=
                { res with files_skipped := res.files_skipped + 1 } }
          else reindex
        | none => reindex

/-- The scan loop over the walker's output: the file-count ceiling is
checked before each file (`stopped_early` set and the rest of the walk
abandoned once `files_scanned` reaches `max_files`). -/
def scanLoop (hash_content : String → String) (cfg : ScanConfig) :
    ScanState → List FileEvent → ScanState
  | st, [] => st
  | st, ev :: rest =>
    if st.res.files_scanned ≥ cfg.max_files then
      { st with res := { st.res with stopped_early := true } }
    else
      scanLoop hash_content cfg (processFile hash_content cfg st ev) rest

/-- The zero-initialised result dict of `scan_workspace_sync`
(`duration_ms` is wall-clock time and is not modelled). -/
def initResult : ScanResult :=
  { files_scanned := 0, files_indexed := 0, files_skipped := 0
    chunks_created := 0, errors := [], stopped_early := false }

/-- `scan_workspace_sync(conn, root_path, ...)`: run the scan loop over
the walker's file sequence starting from fresh run statistics. -/
def scan_workspace_sync (hash_content : String → String) (cfg : ScanConfig)
    (conn : DBConn) (events : List FileEvent) : ScanState :=
  scanLoop hash_content cfg ⟨conn, initResult⟩ events

/-! ### Store lemmas -/

lemma upsert_map_pres (p q h : String) :
    ((fun r : FileRow => r.path == p) ∘
      (fun x : FileRow => if x.path == q then { x with hash := h } else x)) =
    (fun r : FileRow => r.path == p) := by
  funext x
  by_cases hxq : x.path == q
  · rw [Function.comp_apply, if_pos hxq]
  · rw [Function.comp_apply, if_neg hxq]

lemma upsert_file_lookup_self (db : DB) (p h : String) :
    get_file_by_path (upsert_file db p h).2 p =
      some ⟨(upsert_file db p h).1, p, h⟩ := by
  unfold upsert_file get_file_by_path
  rcases hq : db.files.find? (fun r => r.path == p) with _ | r
  · simp only [hq]
    rw [List.find?_append, hq, Option.none_or]
    simp
  · simp only [hq]
    rw [List.find?_map, upsert_map_pres, hq]
    have hrp : r.path = p := by
      have := List.find?_some hq
      simpa using this
    simp [hrp]

lemma upsert_file_lookup_ne (db : DB) (q h p : String) (hne : q ≠ p) :
    get_file_by_path (upsert_file db q h).2 p = get_file_by_path db p := by
  unfold upsert_file get_file_by_path
  rcases hq : db.files.find? (fun r => r.path == q) with _ | r
  · simp only [hq]
    rw [List.find?_append]
    have : List.find? (fun r : FileRow => r.path == p)
        [⟨db.nextId, q, h⟩] = none := by
      simp [hne]
    rw [this, Option.or_none]
  · simp only [hq]
    rw [List.find?_map, upsert_map_pres]
    rcases hp : db.files.find? (fun r : FileRow => r.path == p) with _ | r'
    · rfl
    · have hr'p : r'.path = p := by
        have := List.find?_some hp
        simpa using this
      have hrq : (r'.path == q) = false := by
        rw [hr'p]
        exact beq_eq_false_iff_ne.mpr (Ne.symm hne)
      simp only [hrq, Option.map_some']
      simp

@[simp] lemma delete_chunks_for_file_files (db : DB) (fid : Nat) :
    (delete_chunks_for_file db fid).files = db.files := rfl

@[simp] lemma insert_chunk_files (db : DB) (fid : Nat) (c : PyChunk) :
    (insert_chunk db fid c).files = db.files := rfl

lemma insertChunks_files (db : DB) (fid : Nat) (cs : List PyChunk) :
    (insertChunks db fid cs).files = db.files := by
  induction cs generalizing db with
  | nil => rfl
  | cons c t ih => exact (ih (insert_chunk db fid c)).trans rfl

lemma get_file_by_path_congr (db db' : DB) (h : db.files = db'.files)
    (p : String) : get_file_by_path db p = get_file_by_path db' p := by
  unfold get_file_by_path
  rw [h]

lemma insertChunks_lookup (db : DB) (fid : Nat) (cs : List PyChunk)
    (p : String) :
    get_file_by_path (insertChunks db fid cs) p = get_file_by_path db p :=
  get_file_by_path_congr _ _ (insertChunks_files db fid cs) p

/-! ### Scan step equations -/

lemma processFile_statError (hc : String → String) (cfg : ScanConfig)
    (st : ScanState) (p msg : String) :
    processFile hc cfg st (.statError p msg) =
      { st with res := { st.res with
          files_scanned := st.res.files_scanned + 1,
          errors := st.res.errors ++ [(p, msg)] } } := rfl

lemma processFile_too_large (hc : String → String) (cfg : ScanConfig)
    (st : ScanState) (p : String) (size : Nat) (outcome : ReadOutcome)
    (h : size > cfg.max_file_size) :
    processFile hc cfg st (.ok p size outcome) =
      { st with res := { st.res with
          files_scanned := st.res.files_scanned + 1,
          files_skipped := st.res.files_skipped + 1 } } := by
  dsimp only [processFile]
  rw [if_pos h]

lemma processFile_undecodable (hc : String → String) (cfg : ScanConfig)
    (st : ScanState) (p : String) (size : Nat)
    (h : ¬ size > cfg.max_file_size) :
    processFile hc cfg st (.ok p size .undecodable) =
      { st with res := { st.res with
          files_scanned := st.res.files_scanned + 1,
          files_skipped := st.res.files_skipped + 1 } } := by
  dsimp only [processFile]
  rw [if_neg h]

/-- The unchanged-fingerprint skip: existing row, matching hash — the
whole step only bumps counters, the connection is untouched. -/
lemma processFile_skip (hc : String → String) (cfg : ScanConfig)
    (st : ScanState) (p : String) (size : Nat) (content : String)
    (fail : Option DbFail) (r : FileRow)
    (hsz : ¬ size > cfg.max_file_size)
    (hex : get_file_by_path st.conn.current p = some r)
    (hh : (r.hash == hc content) = true) :
    processFile hc cfg st (.ok p size (.text content fail)) =
      { st with res := { st.res with
          files_scanned := st.res.files_scanned + 1,
          files_skipped := st.res.files_skipped + 1 } } := by
  dsimp only [processFile]
  rw [if_neg hsz]
  simp only [hex, hh]
  rw [if_pos trivial]

/-- What both views of the connection say about path `p`'s file row. -/
def pathState (conn : DBConn) (p : String) (r? : Option FileRow) : Prop :=
  get_file_by_path conn.current p = r? ∧
    get_file_by_path conn.committed p = r?

/-- A successful (re)index step of file `p` commits a row for `p` carrying
the fresh fingerprint, in both views of the connection. -/
lemma processFile_index_pathState (hc : String → String) (cfg : ScanConfig)
    (st : ScanState) (p : String) (size : Nat) (content : String)
    (hsz : ¬ size > cfg.max_file_size)
    (hnm : ∀ r, get_file_by_path st.conn.current p = some r →
      (r.hash == hc content) = false) :
    pathState (processFile hc cfg st (.ok p size (.text content none))).conn p
      (some ⟨(upsert_file st.conn.current p (hc content)).1, p, hc content⟩) := by
  dsimp only [processFile]
  rw [if_neg hsz]
  rcases hex : get_file_by_path st.conn.current p with _ | r
  · simp only [hex]
    refine ⟨?_, ?_⟩ <;>
      exact (insertChunks_lookup _ _ _ _).trans (upsert_file_lookup_self _ _ _)
  · simp only [hex]
    rw [if_neg (by simp [hnm r hex])]
    refine ⟨?_, ?_⟩ <;>
      exact (insertChunks_lookup _ _ _ _).trans (upsert_file_lookup_self _ _ _)

/-- Processing a file with a different path never changes what either view
of the connection says about `p` — in every branch, including every
injected failure. -/
lemma processFile_pathState_pres (hc : String → String) (cfg : ScanConfig)
    (st : ScanState) (ev : FileEvent) (p : String) (r? : Option FileRow)
    (hne : evPath ev ≠ p) (h : pathState st.conn p r?) :
    pathState (processFile hc cfg st ev).conn p r? := by
  obtain ⟨hcur, hcom⟩ := h
  cases ev with
  | statError q msg => exact ⟨hcur, hcom⟩
  | ok q size outcome =>
    have hqp : q ≠ p := hne
    by_cases hsz : size > cfg.max_file_size
    · rw [processFile_too_large _ _ _ _ _ _ hsz]; exact ⟨hcur, hcom⟩
    · cases outcome with
      | undecodable =>
        rw [processFile_undecodable _ _ _ _ _ hsz]; exact ⟨hcur, hcom⟩
      | text content fail =>
        have hcur' : ∀ (db2 : DB) (cs : List PyChunk),
            db2.files = ((upsert_file st.conn.current q (hc content)).2).files →
            get_file_by_path
              (insertChunks db2 (upsert_file st.conn.current q (hc content)).1 cs)
              p = r? := by
          intro db2 cs hf
          rw [insertChunks_lookup, get_file_by_path_congr _ _ hf,
            upsert_file_lookup_ne _ _ _ _ hqp]
          exact hcur
        rcases hex : get_file_by_path st.conn.current q with _ | r
        · dsimp only [processFile]
          rw [if_neg hsz]
          simp only [hex]
          cases fail with
          | none => exact ⟨hcur' _ _ rfl, hcur' _ _ rfl⟩
          | some f =>
            cases f with
            | atInsert k msg =>
              dsimp only
              split_ifs
              all_goals first
                | exact ⟨hcur' _ _ rfl, hcom⟩
                | exact ⟨hcur' _ _ rfl, hcur' _ _ rfl⟩
            | atCommit msg => exact ⟨hcur' _ _ rfl, hcom⟩
        · by_cases hh : (r.hash == hc content) = true
          · rw [processFile_skip _ _ _ _ _ _ _ _ hsz hex hh]
            exact ⟨hcur, hcom⟩
          · dsimp only [processFile]
            rw [if_neg hsz]
            simp only [hex]
            rw [if_neg hh]
            cases fail with
            | none => exact ⟨hcur' _ _ rfl, hcur' _ _ rfl⟩
            | some f =>
              cases f with
              | atInsert k msg =>
                dsimp only
                split_ifs
                all_goals first
                  | exact ⟨hcur' _ _ rfl, hcom⟩
                  | exact ⟨hcur' _ _ rfl, hcur' _ _ rfl⟩
              | atCommit msg => exact ⟨hcur' _ _ rfl, hcom⟩

/-- Each processed file bumps `files_scanned` by one and exactly one of
`files_indexed`, `files_skipped`, `errors` — provided its commit is not
the failing operation. -/
lemma processFile_counting (hc : String → String) (cfg : ScanConfig)
    (st : ScanState) (ev : FileEvent) (h : isCommitFail ev = false) :
    (processFile hc cfg st ev).res.files_scanned =
        st.res.files_scanned + 1 ∧
    (processFile hc cfg st ev).res.files_indexed +
        (processFile hc cfg st ev).res.files_skipped +
        (processFile hc cfg st ev).res.errors.length =
      st.res.files_indexed + st.res.files_skipped +
        st.res.errors.length + 1 := by
  cases ev with
  | statError q msg =>
    rw [processFile_statError]
    exact ⟨by simp <;> omega, by simp [List.length_append] <;> omega⟩
  | ok q size outcome =>
    by_cases hsz : size > cfg.max_file_size
    · rw [processFile_too_large _ _ _ _ _ _ hsz]
      exact ⟨by simp <;> omega, by simp <;> omega⟩
    · cases outcome with
      | undecodable =>
        rw [processFile_undecodable _ _ _ _ _ hsz]
        exact ⟨by simp <;> omega, by simp <;> omega⟩
      | text content fail =>
        rcases hex : get_file_by_path st.conn.current q with _ | r
        · dsimp only [processFile]
          rw [if_neg hsz]
          simp only [hex]
          cases fail with
          | none => exact ⟨by simp <;> omega, by simp <;> omega⟩
          | some f =>
            cases f with
            | atInsert k msg =>
              dsimp only
              split_ifs <;>
                exact ⟨by simp <;> omega,
                  by simp [List.length_append] <;> omega⟩
            | atCommit msg => simp [isCommitFail] at h
        · by_cases hh : (r.hash == hc content) = true
          · rw [processFile_skip _ _ _ _ _ _ _ _ hsz hex hh]
            exact ⟨by simp <;> omega, by simp <;> omega⟩
          · dsimp only [processFile]
            rw [if_neg hsz]
            simp only [hex]
            rw [if_neg hh]
            cases fail with
            | none => exact ⟨by simp <;> omega, by simp <;> omega⟩
            | some f =>
              cases f with
              | atInsert k msg =>
                dsimp only
                split_ifs <;>
                  exact ⟨by simp <;> omega,
                    by simp [List.length_append] <;> omega⟩
              | atCommit msg => simp [isCommitFail] at h

lemma scanLoop_cons (hc : String → String) (cfg : ScanConfig)
    (st : ScanState) (ev : FileEvent) (rest : List FileEvent) :
    scanLoop hc cfg st (ev :: rest) =
      if st.res.files_scanned ≥ cfg.max_files then
        { st with res := { st.res with stopped_early := true } }
      else scanLoop hc cfg (processFile hc cfg st ev) rest := rfl

/-- A whole stretch of the scan over files with other paths preserves
what both views of the connection say about `p`. -/
lemma scanLoop_pathState_pres (hc : String → String) (cfg : ScanConfig) :
    ∀ (events : List FileEvent) (st : ScanState) (p : String)
      (r? : Option FileRow),
      (∀ ev ∈ events, evPath ev ≠ p) → pathState st.conn p r? →
      pathState (scanLoop hc cfg st events).conn p r? := by
  intro events
  induction events with
  | nil => intro st p r? _ h; exact h
  | cons ev rest ih =>
    intro st p r? hne h
    rw [scanLoop_cons]
    split_ifs with hceil
    · exact h
    · exact ih _ p r? (fun e he => hne e (List.mem_cons_of_mem _ he))
        (processFile_pathState_pres hc cfg st ev p r?
          (hne ev (List.mem_cons_self _ _)) h)

lemma scanLoop_counting (hc : String → String) (cfg : ScanConfig) :
    ∀ (events : List FileEvent) (st : ScanState),
      (∀ ev ∈ events, isCommitFail ev = false) →
      st.res.files_scanned = st.res.files_indexed + st.res.files_skipped +
        st.res.errors.length →
      (scanLoop hc cfg st events).res.files_scanned =
        (scanLoop hc cfg st events).res.files_indexed +
          (scanLoop hc cfg st events).res.files_skipped +
          (scanLoop hc cfg st events).res.errors.length := by
  intro events
  induction events with
  | nil => intro st _ h; exact h
  | cons ev rest ih =>
    intro st hne h
    rw [scanLoop_cons]
    split_ifs with hceil
    · exact h
    · refine ih _ (fun e he => hne e (List.mem_cons_of_mem _ he)) ?_
      obtain ⟨h1, h2⟩ := processFile_counting hc cfg st ev
        (hne ev (List.mem_cons_self _ _))
      omega

/-! ### Scan claim theorems -/

/-- C1 (code bug): the per-file `except` handler does not roll back, so
when the first file's chunk insertion raises after `upsert_file`, the
open transaction still holds the updated File row (new fingerprint) and
the chunk deletion; the next file's `conn.commit()` then publishes that
state.  At the end of the run the committed store carries `a.txt` with
its new fingerprint and zero chunks — although the content chunks to one
chunk — and a subsequent run fingerprint-compares and falsely skips it.
The spec requires that a failed file never leaves a File row updated
without its chunks. -/
theorem c1_failed_file_leaves_updated_row_without_chunks :
    let cfg : ScanConfig := ⟨10000, 1048576, 80⟩
    let db0 : DB := ⟨[⟨1, "a.txt", "OLDHASH"⟩], [⟨1, 1, 4, "old"⟩], 2⟩
    let run1 := scan_workspace_sync (fun s => s) cfg ⟨db0, db0⟩
      [.ok "a.txt" 10 (.text "l1\nl2\nl3\nl4"
          (some (.atInsert 0 "disk I/O error"))),
       .ok "b.txt" 5 (.text "hello" none)]
    get_file_by_path run1.conn.committed "a.txt" =
        some ⟨1, "a.txt", "l1\nl2\nl3\nl4"⟩ ∧
    run1.conn.committed.chunks.filter (fun c => c.file_id == 1) = [] ∧
    chunk_content "l1\nl2\nl3\nl4" 80 5 3 ≠ [] ∧
    run1.res.errors = [("a.txt", "disk I/O error")] ∧
    (scan_workspace_sync (fun s => s) ⟨10000, 1048576, 80⟩
        ⟨run1.conn.committed, run1.conn.committed⟩
        [.ok "a.txt" 10 (.text "l1\nl2\nl3\nl4" none)]).res.files_skipped
      = 1 := by
  exact ⟨by decide, by decide, by decide, by decide, by decide⟩

/-- C10 (amended): every file pulled from the walker is counted in at
least one of `files_indexed` / `files_skipped` / `errors`, and in exactly
one — so `files_scanned` equals their sum — provided no file's final
per-file `conn.commit()` itself raises.  (A failing commit strikes after
`files_indexed` was already incremented, double-counting that file; see
the counterexample.) -/
theorem c10_accounting_amended (hc : String → String) (cfg : ScanConfig)
    (conn : DBConn) (events : List FileEvent)
    (h : ∀ ev ∈ events, isCommitFail ev = false) :
    (scan_workspace_sync hc cfg conn events).res.files_scanned =
      (scan_workspace_sync hc cfg conn events).res.files_indexed +
        (scan_workspace_sync hc cfg conn events).res.files_skipped +
        (scan_workspace_sync hc cfg conn events).res.errors.length := by
  unfold scan_workspace_sync
  exact scanLoop_counting hc cfg events _ h (by simp [initResult])

/-- Witness for C10 (amended): a run with one indexed file, one stat
error, one oversized skip and one undecodable skip. -/
theorem c10_accounting_witness :
    (∀ ev ∈ [FileEvent.ok "a" 1 (.text "x" none),
        FileEvent.statError "b" "boom",
        FileEvent.ok "big" 99 (.text "y" none),
        FileEvent.ok "bin" 2 .undecodable], isCommitFail ev = false) ∧
    (scan_workspace_sync (fun s => s) ⟨10, 10, 80⟩ ⟨⟨[], [], 1⟩, ⟨[], [], 1⟩⟩
        [FileEvent.ok "a" 1 (.text "x" none),
         FileEvent.statError "b" "boom",
         FileEvent.ok "big" 99 (.text "y" none),
         FileEvent.ok "bin" 2 .undecodable]).res.files_scanned =
      (scan_workspace_sync (fun s => s) ⟨10, 10, 80⟩ ⟨⟨[], [], 1⟩, ⟨[], [], 1⟩⟩
        [FileEvent.ok "a" 1 (.text "x" none),
         FileEvent.statError "b" "boom",
         FileEvent.ok "big" 99 (.text "y" none),
         FileEvent.ok "bin" 2 .undecodable]).res.files_indexed +
      (scan_workspace_sync (fun s => s) ⟨10, 10, 80⟩ ⟨⟨[], [], 1⟩, ⟨[], [], 1⟩⟩
        [FileEvent.ok "a" 1 (.text "x" none),
         FileEvent.statError "b" "boom",
         FileEvent.ok "big" 99 (.text "y" none),
         FileEvent.ok "bin" 2 .undecodable]).res.files_skipped +
      (scan_workspace_sync (fun s => s) ⟨10, 10, 80⟩ ⟨⟨[], [], 1⟩, ⟨[], [], 1⟩⟩
        [FileEvent.ok "a" 1 (.text "x" none),
         FileEvent.statError "b" "boom",
         FileEvent.ok "big" 99 (.text "y" none),
         FileEvent.ok "bin" 2 .undecodable]).res.errors.length :=
  ⟨by decide, c10_accounting_amended (fun s => s) ⟨10, 10, 80⟩
    ⟨⟨[], [], 1⟩, ⟨[], [], 1⟩⟩ _ (by decide)⟩

/-- Counterexample to C10 as stated: when the per-file `conn.commit()`
raises (SQLite can raise there, e.g. `database is locked`), the file has
already been counted in `files_indexed` and is then also recorded in
`errors`, so `files_scanned ≠ files_indexed + files_skipped + |errors|`. -/
theorem c10_accounting_counterexample :
    let run := scan_workspace_sync (fun s => s) ⟨10000, 1048576, 80⟩
      ⟨⟨[], [], 1⟩, ⟨[], [], 1⟩⟩
      [.ok "a.txt" 1 (.text "x" (some (.atCommit "database is locked")))]
    run.res.files_scanned = 1 ∧ run.res.files_indexed = 1 ∧
    run.res.files_skipped = 0 ∧ run.res.errors.length = 1 ∧
    run.res.files_scanned ≠ run.res.files_indexed + run.res.files_skipped +
      run.res.errors.length := by
  exact ⟨by decide, by decide, by decide, by decide, by decide⟩

/-- C4: a file indexed by a scan run (first file of the run; content
read cleanly; no later event touches its path) is, in a second scan over
the committed store with its content unchanged, counted in
`files_skipped` — not `files_indexed` — with the connection (hence the
chunk table) completely untouched: zero new chunks for that file. -/
theorem c4_unchanged_file_skipped_on_second_run
    (hc : String → String) (cfg : ScanConfig) (D0 : DB)
    (rest : List FileEvent) (p content : String) (size size2 : Nat)
    (hsz : ¬ size > cfg.max_file_size) (hsz2 : ¬ size2 > cfg.max_file_size)
    (hmax : 0 < cfg.max_files)
    (hrest : ∀ ev ∈ rest, evPath ev ≠ p)
    (hchanged : ∀ r, get_file_by_path D0 p = some r →
      (r.hash == hc content) = false) :
    let run1 := scan_workspace_sync hc cfg ⟨D0, D0⟩
      (.ok p size (.text content none) :: rest)
    let st2 : ScanState :=
      ⟨⟨run1.conn.committed, run1.conn.committed⟩, initResult⟩
    processFile hc cfg st2 (.ok p size2 (.text content none)) =
      { st2 with res := { st2.res with
          files_scanned := st2.res.files_scanned + 1,
          files_skipped := st2.res.files_skipped + 1 } } := by
  intro run1 st2
  have hstep : pathState (processFile hc cfg ⟨⟨D0, D0⟩, initResult⟩
      (.ok p size (.text content none))).conn p
      (some ⟨(upsert_file D0 p (hc content)).1, p, hc content⟩) :=
    processFile_index_pathState hc cfg ⟨⟨D0, D0⟩, initResult⟩ p size content
      hsz hchanged
  have hrun1 : pathState run1.conn p
      (some ⟨(upsert_file D0 p (hc content)).1, p, hc content⟩) := by
    show pathState (scanLoop hc cfg ⟨⟨D0, D0⟩, initResult⟩ _).conn p _
    rw [scanLoop_cons]
    rw [if_neg (by simp only [initResult]; omega)]
    exact scanLoop_pathState_pres hc cfg rest _ p _ hrest hstep
  exact processFile_skip hc cfg st2 p size2 content none _ hsz2 hrun1.2
    (by simp)

/-- Witness for C4 at a one-file workspace scanned twice. -/
theorem c4_unchanged_file_witness :
    ((¬ (5 : Nat) > (1048576 : Nat)) ∧ 0 < (10000 : Nat)) ∧
    (let run1 := scan_workspace_sync (fun s => s) ⟨10000, 1048576, 80⟩
        ⟨⟨[], [], 1⟩, ⟨[], [], 1⟩⟩ (.ok "a.txt" 5 (.text "hello" none) :: [])
     let st2 : ScanState :=
        ⟨⟨run1.conn.committed, run1.conn.committed⟩, initResult⟩
     processFile (fun s => s) ⟨10000, 1048576, 80⟩ st2
        (.ok "a.txt" 5 (.text "hello" none)) =
      { st2 with res := { st2.res with
          files_scanned := st2.res.files_scanned + 1,
          files_skipped := st2.res.files_skipped + 1 } }) :=
  ⟨⟨by decide, by decide⟩,
    c4_unchanged_file_skipped_on_second_run (fun s => s) ⟨10000, 1048576, 80⟩
      ⟨[], [], 1⟩ [] "a.txt" "hello" 5 5 (by decide) (by decide) (by decide)
      (by simp) (by intro r hr; simp [get_file_by_path] at hr)⟩

end Nexus
